import Mathlib

/-!
# Verification of the outlier-removal notebook

Shallow embedding of `assignment_outliers_002.ipynb`.  Every cell of the
notebook has the same shape: load a headerless CSV, split off the last
column as the regression target, split train/test with `random_state=1`,
run an outlier detector on the training features, drop the rows the
detector flags with `-1`, fit a linear model on the remaining rows and
report the mean absolute error on the untouched test set.

Numeric scalars are modelled as rationals; a feature matrix is a list of
rows, each row a list of rationals.  The library estimators
(IsolationForest, EllipticEnvelope, LocalOutlierFactor, OneClassSVM,
LinearRegression) are external collaborators: they enter the embedding as
function parameters (`detect`, `fit`), so every theorem below holds for
any detector and any downstream regressor.
-/

namespace DataCleaning

/-- A feature matrix: a list of rows, each a list of rational feature
values. -/
abbrev Matrix := List (List ℚ)

/-- A target vector. -/
abbrev Vector := List ℚ

/-- `mask = yhat != -1` (source: the inlier mask computed from the
detector predictions, where `-1` flags an outlier). -/
def inlierMask (yhat : List Int) : List Bool :=
  yhat.map (fun v => v != -1)

/-- Boolean-mask row selection (source: `X_train[mask, :]` and
`y_train[mask]`): keep exactly the entries whose mask bit is `true`,
in their original order. -/
def maskFilter {α : Type} : List Bool → List α → List α
  | true :: m, x :: xs => x :: maskFilter m xs
  | false :: m, _ :: xs => maskFilter m xs
  | _, _ => []

/-- `mean_absolute_error(y_true, y_pred)`: the average of the absolute
differences between true and predicted targets. -/
def mean_absolute_error (y_true y_pred : Vector) : ℚ :=
  (List.zipWith (fun a b => |a - b|) y_true y_pred).sum / y_true.length

/-! ## Basic lemmas about mask filtering -/

theorem maskFilter_nil_mask {α : Type} (xs : List α) :
    maskFilter [] xs = [] := by
  cases xs <;> rfl

theorem maskFilter_nil {α : Type} (m : List Bool) :
    maskFilter m ([] : List α) = [] := by
  cases m with
  | nil => rfl
  | cons b m => cases b <;> rfl

theorem maskFilter_zip {α β : Type} (m : List Bool) (xs : List α) (ys : List β) :
    maskFilter m (xs.zip ys) = (maskFilter m xs).zip (maskFilter m ys) := by
  induction m generalizing xs ys with
  | nil => simp [maskFilter_nil_mask]
  | cons b m ih =>
    cases xs with
    | nil => simp [maskFilter_nil, maskFilter_nil_mask]
    | cons x xs =>
      cases ys with
      | nil =>
        cases b <;> simp [maskFilter, maskFilter_nil, List.zip_nil_right]
      | cons y ys =>
        cases b
        · simpa [maskFilter, List.zip_cons_cons] using ih xs ys
        · simpa [maskFilter, List.zip_cons_cons] using ih xs ys

theorem maskFilter_sublist {α : Type} (m : List Bool) (xs : List α) :
    List.Sublist (maskFilter m xs) xs := by
  induction m generalizing xs with
  | nil => simp [maskFilter_nil_mask]
  | cons b m ih =>
    cases xs with
    | nil => simp [maskFilter_nil]
    | cons x xs =>
      cases b with
      | true => exact List.Sublist.cons₂ x (ih xs)
      | false => exact List.Sublist.cons x (ih xs)

theorem maskFilter_length {α : Type} (m : List Bool) (xs : List α)
    (h : m.length = xs.length) :
    (maskFilter m xs).length = m.count true := by
  induction m generalizing xs with
  | nil => simp [maskFilter_nil_mask]
  | cons b m ih =>
    cases xs with
    | nil => simp at h
    | cons x xs =>
      simp only [List.length_cons, Nat.succ.injEq] at h
      cases b <;> simp [maskFilter, ih xs h, List.count_cons]

theorem inlierMask_count (yhat : List Int) :
    (inlierMask yhat).count true = yhat.length - yhat.count (-1) := by
  induction yhat with
  | nil => simp [inlierMask]
  | cons v ys ih =>
    have hle : List.count (-1 : Int) ys ≤ ys.length := List.count_le_length _ _
    by_cases hv : v = -1
    · subst hv
      have h1 : inlierMask (-1 :: ys) = false :: inlierMask ys := by
        simp [inlierMask]
      rw [h1]
      simp [List.count_cons, ih]
    · have h1 : inlierMask (v :: ys) = true :: inlierMask ys := by
        simp [inlierMask, bne_iff_ne, hv]
      rw [h1]
      simp [List.count_cons, ih, hv]
      omega

/-! ## Configuration validation of the outlier-filter stage -/

/-- Configuration errors of the outlier-filter stage. -/
inductive ConfigError : Type
  | invalidOutlierFraction (value : ℚ)
deriving DecidableEq

/-- Modelled from the spec: the notebook contains no validation code of its
own (it passes `contamination=0.1` resp. `nu=0.01` straight to the library
estimator); the spec's OutlierFilterStage contract states that a fraction
outside `(0, 0.5]` is rejected with a configuration error before fitting. -/
def checkOutlierFraction (frac : ℚ) : Except ConfigError Unit :=
  if 0 < frac ∧ frac ≤ 1 / 2 then Except.ok ()
  else Except.error (ConfigError.invalidOutlierFraction frac)

/-- Modelled from the spec: the OutlierFilterStage — validate the
expected-outlier-fraction, then run the (swappable) detector on the
training features, build the inlier mask and apply it to features and
targets alike, exactly as each notebook cell does. -/
def outlierFilterStage (frac : ℚ) (detect : Matrix → List Int)
    (X : Matrix) (y : Vector) : Except ConfigError (Matrix × Vector) :=
  match checkOutlierFraction frac with
  | Except.error e => Except.error e
  | Except.ok _ =>
      let m := inlierMask (detect X)
      Except.ok (maskFilter m X, maskFilter m y)

/-! ## The seeded train/test split

`train_test_split(X, y, test_size=0.33, random_state=1)` is a library
routine whose implementation is not part of this repository; it is
modelled below as a deterministic, seed-driven pseudo-random permutation
of the row indices, cut after the test count — the structure the spec
ascribes to it (a deterministic partition into disjoint subsets covering
all rows). -/

/-- A linear congruential pseudo-random step (stands in for the library's
seeded generator; any deterministic generator gives the same theorems). -/
def lcg (s : Nat) : Nat := (1103515245 * s + 12345) % 2 ^ 31

/-- Fuelled pick-and-remove shuffle: draw a pseudo-random position, move
that element to the front, recurse on the rest. -/
def shuffleAux {α : Type} : Nat → Nat → List α → List α
  | 0, _, _ => []
  | n + 1, s, xs =>
    if h : xs.length = 0 then []
    else
      let k := lcg s % xs.length
      xs.get ⟨k, Nat.mod_lt _ (Nat.pos_of_ne_zero h)⟩ ::
        shuffleAux n (lcg s) (xs.eraseIdx k)

/-- Modelled from the spec: the deterministic seeded shuffle underlying
the train/test split. -/
def shuffle {α : Type} (seed : Nat) (xs : List α) : List α :=
  shuffleAux xs.length seed xs

/-- Modelled from the spec: the split at the index level — shuffle the row
indices `0, …, n-1` with the seed, the first `nTest` shuffled indices form
the test subset, the remainder the training subset. -/
def splitIdx (seed nTest n : Nat) : List Nat × List Nat :=
  ((shuffle seed (List.range n)).drop nTest,
   (shuffle seed (List.range n)).take nTest)

/-- Modelled from the spec:
`train_test_split(rows, test_size, random_state=seed)` — materialise the
training and test subsets by indexing the rows with the split index
lists. -/
def train_test_split {α : Type} (seed nTest : Nat) (rows : List α) :
    List α × List α :=
  ((splitIdx seed nTest rows.length).1.filterMap (fun i => rows[i]?),
   (splitIdx seed nTest rows.length).2.filterMap (fun i => rows[i]?))

/-! ## Lemmas about the shuffle -/

theorem get_cons_eraseIdx_perm {α : Type} :
    ∀ (xs : List α) (k : Nat) (h : k < xs.length),
      List.Perm (xs.get ⟨k, h⟩ :: xs.eraseIdx k) xs
  | x :: xs, 0, _ => List.Perm.refl _
  | x :: xs, k + 1, h => by
    have ih := get_cons_eraseIdx_perm xs k (by simpa using h)
    have hswap :
        List.Perm ((x :: xs).get ⟨k + 1, h⟩ :: (x :: xs).eraseIdx (k + 1))
          (x :: xs.get ⟨k, by simpa using h⟩ :: xs.eraseIdx k) := by
      simp only [List.get_cons_succ, List.eraseIdx_cons_succ]
      exact List.Perm.swap _ _ _
    exact hswap.trans (List.Perm.cons x ih)

theorem shuffleAux_perm {α : Type} :
    ∀ (n s : Nat) (xs : List α), xs.length ≤ n →
      List.Perm (shuffleAux n s xs) xs
  | 0, _, xs, h => by
    have : xs = [] := List.length_eq_zero.mp (Nat.le_zero.mp h)
    simp [this, shuffleAux]
  | n + 1, s, xs, h => by
    by_cases h0 : xs.length = 0
    · have : xs = [] := List.length_eq_zero.mp h0
      simp [this, shuffleAux]
    · have hk : lcg s % xs.length < xs.length :=
        Nat.mod_lt _ (Nat.pos_of_ne_zero h0)
      have hlen : (xs.eraseIdx (lcg s % xs.length)).length ≤ n := by
        have := List.length_eraseIdx_add_one hk
        omega
      have ih := shuffleAux_perm n (lcg s) (xs.eraseIdx (lcg s % xs.length)) hlen
      have hunfold :
          shuffleAux (n + 1) s xs =
            xs.get ⟨lcg s % xs.length, hk⟩ ::
              shuffleAux n (lcg s) (xs.eraseIdx (lcg s % xs.length)) := by
        simp only [shuffleAux, h0, dif_neg, dite_false]
      rw [hunfold]
      exact (List.Perm.cons _ ih).trans (get_cons_eraseIdx_perm xs _ hk)

theorem shuffle_perm {α : Type} (seed : Nat) (xs : List α) :
    List.Perm (shuffle seed xs) xs :=
  shuffleAux_perm xs.length seed xs (Nat.le_refl _)

/-! ## Loading the dataset -/

/-- `read_csv(url, header=...)`: with `header=None` every CSV line is a
data row; with `header=some k` line `k` is the header and the data rows
start after it.  The source passes `header=None`. -/
def read_csv (header : Option Nat) (lines : List (List ℚ)) : List (List ℚ) :=
  match header with
  | none => lines
  | some k => lines.drop (k + 1)

/-- Source: `X, y = data[:, :-1], data[:, -1]` applied to the rows of
`read_csv(url, header=None)` — everything but the last column becomes a
feature row, the last column the target. -/
def loadXy (lines : List (List ℚ)) : Matrix × Vector :=
  ((read_csv none lines).map List.dropLast,
   (read_csv none lines).map (fun r => r.getLastD 0))

theorem dropLast_append_getLastD :
    ∀ (r : List ℚ), r ≠ [] → r.dropLast ++ [r.getLastD 0] = r
  | [a], _ => rfl
  | a :: b :: r, _ => by
    have ih := dropLast_append_getLastD (b :: r) (by simp)
    show a :: (List.dropLast (b :: r) ++ [(b :: r).getLastD 0]) = a :: b :: r
    rw [ih]

/-! ## The notebook cells -/

/-- The split part of every cell's state: the four arrays
`train_test_split` binds. -/
structure SplitState where
  X_train : Matrix
  X_test : Matrix
  y_train : Vector
  y_test : Vector
deriving DecidableEq

/-- `test_size=0.33`: the number of held-out rows is `⌈0.33 · n⌉`
(on the 506-row dataset this gives the 167/339 split whose training
shape `(339, 13)` the notebook prints). -/
def nTestOf (n : Nat) : Nat := (33 * n + 99) / 100

/-- The load-and-split prefix shared by every cell: read the headerless
CSV, split off the target column, then
`train_test_split(X, y, test_size=0.33, random_state=1)` — one index
permutation applied to `X` and `y` alike. -/
def splitStage (lines : List (List ℚ)) : SplitState :=
  let X := (loadXy lines).1
  let y := (loadXy lines).2
  let idx := splitIdx 1 (nTestOf X.length) X.length
  { X_train := idx.1.filterMap (fun i => X[i]?)
    X_test := idx.2.filterMap (fun i => X[i]?)
    y_train := idx.1.filterMap (fun i => y[i]?)
    y_test := idx.2.filterMap (fun i => y[i]?) }

/-- `yhat = detector.fit_predict(X_train); mask = yhat != -1;
X_train, y_train = X_train[mask, :], y_train[mask]`: the filter step of
a cell — only the training half of the state is touched. -/
def filterStage (detect : Matrix → List Int) (s : SplitState) : SplitState :=
  let m := inlierMask (detect s.X_train)
  { s with
      X_train := maskFilter m s.X_train
      y_train := maskFilter m s.y_train }

/-- `model.fit(X_train, y_train); yhat = model.predict(X_test);
mae = mean_absolute_error(y_test, yhat)`: fit the downstream regressor
on the (filtered) training set and score it on the test set.  `fit`
abstracts `LinearRegression`: it maps a training set and a query matrix
to predictions. -/
def evalStage (fit : Matrix → Vector → Matrix → Vector) (s : SplitState) : ℚ :=
  mean_absolute_error s.y_test (fit s.X_train s.y_train s.X_test)

/-- The notebook globals a detector cell assigns. -/
structure NotebookEnv where
  data : Matrix
  X : Matrix
  y : Vector
  X_train : Matrix
  X_test : Matrix
  y_train : Vector
  y_test : Vector
  yhat : List Int
  mask : List Bool
  mae : ℚ

/-- One full detector cell.  The argument `env` is the notebook state
left behind by previously executed cells; the cell rebinds every global
it uses — from `data = read_csv(...)` down to `mae` — before use,
exactly as the source cell's statements do, so `env` is never read. -/
def runDetectorCell (env : NotebookEnv) (lines : List (List ℚ))
    (detect : Matrix → List Int)
    (fit : Matrix → Vector → Matrix → Vector) : NotebookEnv :=
  let _ := env
  let s := splitStage lines
  let s' := filterStage detect s
  { data := read_csv none lines
    X := (loadXy lines).1
    y := (loadXy lines).2
    X_train := s'.X_train
    X_test := s'.X_test
    y_train := s'.y_train
    y_test := s'.y_test
    yhat := detect s.X_train
    mask := inlierMask (detect s.X_train)
    mae := evalStage fit s' }

/-! ## Claim theorems -/

/-- C1: for every invocation of the outlier-filtering stage with an
expected-outlier-fraction parameter outside the interval (0, 0.5], the
stage rejects the configuration with a `ConfigError`; the result is the
same for every detector, so no fitting influences it. -/
theorem invalid_fraction_rejected_before_fit (frac : ℚ)
    (h : frac ≤ 0 ∨ 1 / 2 < frac) (detect : Matrix → List Int)
    (X : Matrix) (y : Vector) :
    outlierFilterStage frac detect X y =
      Except.error (ConfigError.invalidOutlierFraction frac) := by
  have hnot : ¬ (0 < frac ∧ frac ≤ 1 / 2) := by
    rcases h with h | h
    · exact fun hc => absurd hc.1 (not_lt.mpr h)
    · exact fun hc => absurd hc.2 (not_le.mpr h)
  unfold outlierFilterStage checkOutlierFraction
  rw [if_neg hnot]

theorem invalid_fraction_rejected_before_fit_witness :
    outlierFilterStage (3 / 5) (fun _ => []) [] [] =
      Except.error (ConfigError.invalidOutlierFraction (3 / 5)) :=
  invalid_fraction_rejected_before_fit (3 / 5) (Or.inr (by norm_num))
    (fun _ => []) [] []

/-- C2: filtering with the detector's inlier mask keeps feature row `i`
aligned with target entry `i` (zipping the filtered pair equals
filtering the zipped original), and the retained rows form a sublist of
the input, hence appear in their original relative order. -/
theorem filter_preserves_correspondence_and_order (yhat : List Int)
    (X : Matrix) (y : Vector) :
    (maskFilter (inlierMask yhat) X).zip (maskFilter (inlierMask yhat) y) =
        maskFilter (inlierMask yhat) (X.zip y)
      ∧ List.Sublist (maskFilter (inlierMask yhat) X) X
      ∧ List.Sublist (maskFilter (inlierMask yhat) y) y :=
  ⟨(maskFilter_zip (inlierMask yhat) X y).symm,
   maskFilter_sublist (inlierMask yhat) X,
   maskFilter_sublist (inlierMask yhat) y⟩

/-- C3: the filtered training set has exactly the original number of rows
minus the number of rows the detector flagged with `-1`, for the feature
matrix and the target vector alike. -/
theorem filtered_count (yhat : List Int) (X : Matrix) (y : Vector)
    (hX : X.length = yhat.length) (hy : y.length = yhat.length) :
    (maskFilter (inlierMask yhat) X).length = X.length - yhat.count (-1)
      ∧ (maskFilter (inlierMask yhat) y).length = y.length - yhat.count (-1) := by
  have hmX : (inlierMask yhat).length = X.length := by
    simp [inlierMask, hX]
  have hmy : (inlierMask yhat).length = y.length := by
    simp [inlierMask, hy]
  constructor
  · rw [maskFilter_length _ _ hmX, inlierMask_count, hX]
  · rw [maskFilter_length _ _ hmy, inlierMask_count, hy]

theorem filtered_count_witness :
    (maskFilter (inlierMask [1, -1, 1]) [[(1 : ℚ)], [2], [3]]).length =
        ([[(1 : ℚ)], [2], [3]] : Matrix).length - List.count (-1) [1, -1, 1]
      ∧ (maskFilter (inlierMask [1, -1, 1]) [(10 : ℚ), 20, 30]).length =
        ([(10 : ℚ), 20, 30] : Vector).length - List.count (-1) [1, -1, 1] :=
  filtered_count [1, -1, 1] [[1], [2], [3]] [10, 20, 30] rfl rfl

theorem abs_zipWith_sum_nonneg :
    ∀ (l₁ l₂ : Vector), 0 ≤ (List.zipWith (fun a b => |a - b|) l₁ l₂).sum
  | [], _ => by simp
  | _ :: _, [] => by simp
  | a :: l₁, b :: l₂ => by
    simp only [List.zipWith_cons_cons, List.sum_cons]
    exact add_nonneg (abs_nonneg _) (abs_zipWith_sum_nonneg l₁ l₂)

/-- C4: the mean absolute error of any pair of equal-length prediction
and truth vectors is non-negative. -/
theorem mae_nonneg (y_true y_pred : Vector)
    (_hlen : y_true.length = y_pred.length) :
    0 ≤ mean_absolute_error y_true y_pred :=
  div_nonneg (abs_zipWith_sum_nonneg y_true y_pred) (Nat.cast_nonneg _)

theorem mae_nonneg_witness :
    0 ≤ mean_absolute_error [(1 : ℚ), 2] [(3 : ℚ), 1] :=
  mae_nonneg [1, 2] [3, 1] rfl

/-- C5: with the fixed seed `random_state=1`, two runs of the train/test
split on equal input datasets produce identical training and test
subsets. -/
theorem split_deterministic {α : Type} (nTest : Nat) (d₁ d₂ : List α)
    (h : d₁ = d₂) :
    train_test_split 1 nTest d₁ = train_test_split 1 nTest d₂ := by
  rw [h]

theorem split_deterministic_witness :
    train_test_split 1 2 [(0 : ℚ), 1, 2, 3] =
      train_test_split 1 2 [(0 : ℚ), 1, 2, 3] :=
  split_deterministic 2 [0, 1, 2, 3] [0, 1, 2, 3] rfl

/-- C6: the split partitions the row indices — no index is in both the
training and the test part, every index below `n` is in one of them, and
the two index lists together are a permutation of all row indices. -/
theorem split_partition (seed nTest n : Nat) :
    (∀ i, i ∈ (splitIdx seed nTest n).1 → i ∉ (splitIdx seed nTest n).2)
      ∧ (∀ i, i < n →
          i ∈ (splitIdx seed nTest n).1 ∨ i ∈ (splitIdx seed nTest n).2)
      ∧ List.Perm ((splitIdx seed nTest n).2 ++ (splitIdx seed nTest n).1)
          (List.range n) := by
  have hperm : List.Perm (shuffle seed (List.range n)) (List.range n) :=
    shuffle_perm seed (List.range n)
  have happ :
      (shuffle seed (List.range n)).take nTest ++
          (shuffle seed (List.range n)).drop nTest =
        shuffle seed (List.range n) :=
    List.take_append_drop nTest _
  have hperm2 :
      List.Perm ((splitIdx seed nTest n).2 ++ (splitIdx seed nTest n).1)
        (List.range n) := by
    unfold splitIdx
    rw [happ]
    exact hperm
  have hnd : ((splitIdx seed nTest n).2 ++ (splitIdx seed nTest n).1).Nodup :=
    hperm2.nodup_iff.mpr (List.nodup_range n)
  have hdisj :
      (splitIdx seed nTest n).2.Disjoint (splitIdx seed nTest n).1 :=
    (List.nodup_append.mp hnd).2.2
  refine ⟨?_, ?_, hperm2⟩
  · intro i h1 h2
    exact hdisj h2 h1
  · intro i hi
    have : i ∈ (splitIdx seed nTest n).2 ++ (splitIdx seed nTest n).1 :=
      hperm2.mem_iff.mpr (List.mem_range.mpr hi)
    rcases List.mem_append.mp this with h | h
    · exact Or.inr h
    · exact Or.inl h

/-- C7: the CSV is read with no header row (no line is consumed as a
header: the loaded feature matrix and target vector have one entry per
CSV line), and each row splits so that its feature part concatenated
with its final target value gives back the row. -/
theorem load_splits_last_column (lines : List (List ℚ))
    (hne : ∀ r ∈ lines, r ≠ []) :
    read_csv none lines = lines
      ∧ (loadXy lines).1.length = lines.length
      ∧ (loadXy lines).2.length = lines.length
      ∧ List.zipWith (fun xr v => xr ++ [v])
          (loadXy lines).1 (loadXy lines).2 = lines := by
  refine ⟨rfl, by simp [loadXy, read_csv], by simp [loadXy, read_csv], ?_⟩
  show List.zipWith (fun xr v => xr ++ [v])
      (lines.map List.dropLast) (lines.map (fun r => r.getLastD 0)) = lines
  induction lines with
  | nil => rfl
  | cons r rs ih =>
    have hr : r.dropLast ++ [r.getLastD 0] = r :=
      dropLast_append_getLastD r (hne r (by simp))
    have hrs := ih (fun t ht => hne t (by simp [ht]))
    simp only [List.map_cons, List.zipWith_cons_cons]
    rw [hr, hrs]

theorem load_splits_last_column_witness :
    read_csv none [[(1 : ℚ), 2], [3, 4]] = [[(1 : ℚ), 2], [3, 4]]
      ∧ (loadXy [[(1 : ℚ), 2], [3, 4]]).1.length =
          ([[(1 : ℚ), 2], [3, 4]] : List (List ℚ)).length
      ∧ (loadXy [[(1 : ℚ), 2], [3, 4]]).2.length =
          ([[(1 : ℚ), 2], [3, 4]] : List (List ℚ)).length
      ∧ List.zipWith (fun xr v => xr ++ [v])
          (loadXy [[(1 : ℚ), 2], [3, 4]]).1
          (loadXy [[(1 : ℚ), 2], [3, 4]]).2 = [[(1 : ℚ), 2], [3, 4]] :=
  load_splits_last_column [[1, 2], [3, 4]] (by simp)

/-- C8: a detector cell's result is independent of the notebook state
left behind by previously executed cells — every global the cell reads
is rebound from the freshly loaded dataset first, so running it after
any other pipeline yields the same environment as running it fresh. -/
theorem cell_independent_of_prior_state (env₁ env₂ : NotebookEnv)
    (lines : List (List ℚ)) (detect : Matrix → List Int)
    (fit : Matrix → Vector → Matrix → Vector) :
    runDetectorCell env₁ lines detect fit =
      runDetectorCell env₂ lines detect fit := rfl

/-- C10: the frame of the pipeline — the filter step leaves `X_test` and
`y_test` unchanged; the filtered training set does not depend on the
test data at all (the detector is fit only on the training features);
and the cell's MAE is computed against the entire unfiltered test split. -/
theorem filter_frame (detect : Matrix → List Int)
    (fit : Matrix → Vector → Matrix → Vector) (env : NotebookEnv)
    (lines : List (List ℚ)) (s : SplitState) :
    (filterStage detect s).X_test = s.X_test
      ∧ (filterStage detect s).y_test = s.y_test
      ∧ (∀ Xt yt,
          (filterStage detect { s with X_test := Xt, y_test := yt }).X_train =
              (filterStage detect s).X_train
            ∧ (filterStage detect { s with X_test := Xt, y_test := yt }).y_train =
              (filterStage detect s).y_train)
      ∧ (runDetectorCell env lines detect fit).mae =
          mean_absolute_error (splitStage lines).y_test
            (fit (filterStage detect (splitStage lines)).X_train
              (filterStage detect (splitStage lines)).y_train
              (splitStage lines).X_test) :=
  ⟨rfl, rfl, fun _ _ => ⟨rfl, rfl⟩, rfl⟩

end DataCleaning
